import Mathlib

/-!
Shallow embedding of the grouped-checkbox prompt engine
(`src/utils.ts`, `src/types.ts` and the prompt module), together with
proofs about its normalization, filtering, navigation, selection and
result-building behaviour.

Conventions of the embedding:
* JavaScript strings used for matching are `List Char`; `toLowerCase`
  is `List.map Char.toLower` and `String.prototype.includes` is infix
  containment.
* `disabled` may be `boolean | string` in the source; the embedding
  models its truthiness as a `Bool`.
* Optional fields (`name?`, `checked?`, ...) are `Option`s; the `??`
  operator is `Option.getD`.
* The runtime value of the session's `choices` array may contain group
  headers (the initializer only filters separators out), and a spread
  `{...header, checked: b}` gives a header a `checked` property, so the
  `Item` type carries a `checked` flag on headers as well (it is `false`
  on every freshly created header, like the absent/undefined property).
* A JavaScript property read that can yield `undefined` (e.g. `value`
  on a group header) is modelled with `Option`; `undefined === x` is
  equality in `Option`.
-/

namespace GC

/-- Characters of a JavaScript string. -/
abbrev Str := List Char

/-- Raw choice as supplied by the caller (`Choice<Value>` in types.ts). -/
structure Choice (V : Type) where
  value : V
  name : Option Str := none
  description : Option String := none
  short : Option Str := none
  disabled : Option Bool := none
  checked : Option Bool := none
deriving DecidableEq

/-- Raw group as supplied by the caller (`Group<Value>` in types.ts). -/
structure Group (V : Type) where
  key : String
  label : String
  icon : Option String := none
  choices : List (Choice V)
deriving DecidableEq

/-- `NormalizedChoice<Value>` from types.ts. -/
structure NormalizedChoice (V : Type) where
  value : V
  name : Str
  description : Option String
  short : Str
  disabled : Bool
  checked : Bool
  groupKey : String
  groupIndex : Nat
  indexInGroup : Nat
deriving DecidableEq

/-- `Item<Value>` from types.ts: a normalized choice, a group header or a
separator.  Headers carry the dynamic `checked` property they can acquire
at runtime (absent, i.e. falsy, on construction). -/
inductive Item (V : Type) where
  | choice (c : NormalizedChoice V)
  | header (groupKey : String) (label : String) (icon : Option String) (checked : Bool)
  | separator (sep : String)
deriving DecidableEq

/-- `NormalizedGroup<Value>` from types.ts. -/
structure NormalizedGroup (V : Type) where
  key : String
  label : String
  icon : Option String
  startIndex : Nat
  endIndex : Nat
  choices : List (NormalizedChoice V)
deriving DecidableEq

variable {V : Type} [DecidableEq V]

/-- `isGroupHeader` from types.ts. -/
def isGroupHeader : Item V → Bool
  | .header _ _ _ _ => true
  | _ => false

/-- `Separator.isSeparator`. -/
def isSeparator : Item V → Bool
  | .separator _ => true
  | _ => false

/-- Read of the `value` property (undefined on headers/separators). -/
def entryValue : Item V → Option V
  | .choice c => some c.value
  | _ => none

/-- Read of the `groupKey` property (undefined on separators). -/
def entryGroupKey : Item V → Option String
  | .choice c => some c.groupKey
  | .header gk _ _ _ => some gk
  | .separator _ => none

/-- Truthiness of the `checked` property. -/
def entryChecked : Item V → Bool
  | .choice c => c.checked
  | .header _ _ _ b => b
  | .separator _ => false

/-- Truthiness of the `disabled` property (headers/separators have none). -/
def entryDisabled : Item V → Bool
  | .choice c => c.disabled
  | _ => false

/-- Read of the `name` property (undefined on headers/separators). -/
def entryName : Item V → Option Str
  | .choice c => some c.name
  | _ => none

/-- Read of the `description` property. -/
def entryDescription : Item V → Option String
  | .choice c => c.description
  | _ => none

/-- Read of the `short` property. -/
def entryShort : Item V → Option Str
  | .choice c => some c.short
  | _ => none

/-- Read of the `groupIndex` property. -/
def entryGroupIndex : Item V → Option Nat
  | .choice c => some c.groupIndex
  | _ => none

/-- Read of the `indexInGroup` property. -/
def entryIndexInGroup : Item V → Option Nat
  | .choice c => some c.indexInGroup
  | _ => none

/-- Spread `{...item, checked: b}`. -/
def setChecked : Item V → Bool → Item V
  | .choice c, b => .choice { c with checked := b }
  | .header gk l i _, b => .header gk l i b
  | .separator s, _ => .separator s

/-- Normalization of one raw choice (body of the inner loop of
`normalizeGroups`). -/
def normalizeChoice (str : V → Str) (key : String) (gIdx j : Nat) (c : Choice V) :
    NormalizedChoice V :=
  { value := c.value
  , name := c.name.getD (str c.value)
  , description := c.description
  , short := c.short.getD (c.name.getD (str c.value))
  , disabled := c.disabled.getD false
  , checked := c.checked.getD false
  , groupKey := key
  , groupIndex := gIdx
  , indexInGroup := j }

/-- Inner loop of `normalizeGroups` over one group's choices. -/
def normalizeChoices (str : V → Str) (key : String) (gIdx : Nat) :
    Nat → List (Choice V) → List (NormalizedChoice V)
  | _, [] => []
  | j, c :: cs => normalizeChoice str key gIdx j c :: normalizeChoices str key gIdx (j + 1) cs

/-- Main loop of `normalizeGroups`, threading the group index and the
running flat index. -/
def normalizeGroupsAux (str : V → Str) :
    List (Group V) → Nat → Nat → List (NormalizedGroup V) × List (Item V)
  | [], _, _ => ([], [])
  | g :: gs, gIdx, flatIndex =>
      let ncs := normalizeChoices str g.key gIdx 0 g.choices
      let newFlat := flatIndex + 1 + ncs.length
      let rest := normalizeGroupsAux str gs (gIdx + 1) newFlat
      ({ key := g.key, label := g.label, icon := g.icon
       , startIndex := flatIndex, endIndex := newFlat - 1, choices := ncs } :: rest.1,
       Item.header g.key g.label g.icon false :: (ncs.map Item.choice ++ rest.2))

/-- `normalizeGroups` from utils.ts.  `str` models `String(choice.value)`. -/
def normalizeGroups (str : V → Str) (groups : List (Group V)) :
    List (NormalizedGroup V) × List (Item V) :=
  normalizeGroupsAux str groups 0 0

/-- `toLowerCase`. -/
def strLower (s : Str) : Str := s.map Char.toLower

/-- `String.prototype.includes`: substring containment. -/
def strIncludes (s sub : Str) : Bool := decide (sub <:+: s)

/-- The match test of `filterBySearch`:
`!query || choice.name.toLowerCase().includes(query.toLowerCase())`. -/
def matchesQuery (query name : Str) : Bool :=
  query.isEmpty || strIncludes (strLower name) (strLower query)

/-- The `currentGroupChoices` computation of `filterBySearch`: live choices
of a group pulled from the current flat sequence. -/
def groupChoicesOf (flat : List (Item V)) (key : String) : List (NormalizedChoice V) :=
  flat.filterMap (fun it =>
    match it with
    | .choice c => if c.groupKey = key then some c else none
    | _ => none)

/-- The matching choices of one group inside `filterBySearch`. -/
def matchingChoices (flat : List (Item V)) (key : String) (query : Str) :
    List (NormalizedChoice V) :=
  (groupChoicesOf flat key).filter (fun c => matchesQuery query c.name)

/-- Loop of `filterBySearch` over the groups, threading `flatIndex`. -/
def filterBySearchAux (flat : List (Item V)) (query : Str) :
    List (NormalizedGroup V) → Nat → List (Item V) × List (NormalizedGroup V)
  | [], _ => ([], [])
  | g :: gs, flatIndex =>
      let matching := matchingChoices flat g.key query
      if matching.isEmpty then filterBySearchAux flat query gs flatIndex
      else
        let rest := filterBySearchAux flat query gs (flatIndex + 1 + matching.length)
        (Item.header g.key g.label g.icon false :: (matching.map Item.choice ++ rest.1),
         { g with startIndex := flatIndex
                , endIndex := flatIndex + matching.length
                , choices := matching } :: rest.2)

/-- `filterBySearch` from utils.ts. -/
def filterBySearch (flat : List (Item V)) (groups : List (NormalizedGroup V))
    (query : Str) : List (Item V) × List (NormalizedGroup V) :=
  filterBySearchAux flat query groups 0

/-- `getCurrentGroup` from utils.ts (the cursor may be `-1`, hence `Int`). -/
def getCurrentGroup (cursorIndex : Int) (groups : List (NormalizedGroup V)) :
    Option (NormalizedGroup V) :=
  groups.find? (fun g => decide ((g.startIndex : Int) ≤ cursorIndex) &&
    decide (cursorIndex ≤ (g.endIndex : Int)))

/-- `isSelectableItem` from utils.ts: headers are selectable, separators are
not, choices are selectable iff not disabled. -/
def isSelectableItem : Item V → Bool
  | .header _ _ _ _ => true
  | .separator _ => false
  | .choice c => !c.disabled

/-- Body of the scan loop of `findNextSelectableIndex`, with fuel equal to
the remaining permitted iterations. -/
def findNextAux (items : List (Item V)) (current direction : Int) :
    Int → Nat → Int
  | _, 0 => current
  | idx, fuel + 1 =>
      let idx1 := if idx < 0 then (items.length : Int) - 1 else idx
      let idx2 := if (items.length : Int) ≤ idx1 then 0 else idx1
      match items.get? idx2.toNat with
      | some item =>
          if isSelectableItem item then idx2
          else findNextAux items current direction (idx2 + direction) fuel
      | none => findNextAux items current direction (idx2 + direction) fuel

/-- `findNextSelectableIndex` from utils.ts. -/
def findNextSelectableIndex (items : List (Item V)) (currentIndex direction : Int) : Int :=
  if items.length = 0 then -1
  else findNextAux items currentIndex direction (currentIndex + direction) items.length

/-- Loop of `findFirstSelectableIndex`. -/
def findFirstAux : Nat → List (Item V) → Nat
  | _, [] => 0
  | i, it :: rest => if isSelectableItem it then i else findFirstAux (i + 1) rest

/-- `findFirstSelectableIndex` from utils.ts. -/
def findFirstSelectableIndex (items : List (Item V)) : Nat := findFirstAux 0 items

/-- The selections object: group key to pushed values.  A pushed value is
`none` when the runtime pushes `undefined` (a checked header's `value`). -/
abbrev Selections (V : Type) := List (String × List (Option V))

/-- One step of the initialization loop of `buildSelections`
(`selections[group.key] = []`). -/
def initStep (m : Selections V) (g : NormalizedGroup V) : Selections V :=
  if m.any (fun e => e.1 = g.key) then
    m.map (fun e => if e.1 = g.key then (e.1, []) else e)
  else m ++ [(g.key, [])]

/-- The initialization loop of `buildSelections`. -/
def initSelections (groups : List (NormalizedGroup V)) : Selections V :=
  groups.foldl initStep []

/-- `groupSelections.push(choice.value)`. -/
def pushSelection (m : Selections V) (k : String) (v : Option V) : Selections V :=
  m.map (fun e => if e.1 = k then (e.1, e.2 ++ [v]) else e)

/-- One step of the accumulation loop of `buildSelections`: a checked
entry's `value` is pushed onto its group's array when that key exists. -/
def selStep (m : Selections V) (c : Item V) : Selections V :=
  if entryChecked c then
    match entryGroupKey c with
    | some k => if m.any (fun e => e.1 = k) then pushSelection m k (entryValue c) else m
    | none => m
  else m

/-- `buildSelections` from utils.ts, over the runtime contents of the
session's `choices` array (which may contain headers). -/
def buildSelections (choices : List (Item V)) (groups : List (NormalizedGroup V)) :
    Selections V :=
  choices.foldl selStep (initSelections groups)

/-- Property lookup in the selections object. -/
def lookupSel (m : Selections V) (k : String) : Option (List (Option V)) :=
  (m.find? (fun e => e.1 = k)).map (fun e => e.2)

/-- `toggleGroup` from utils.ts. -/
def toggleGroup (choices : List (NormalizedChoice V)) (group : NormalizedGroup V)
    (checked : Bool) : List (NormalizedChoice V) :=
  choices.map (fun c =>
    if c.groupKey = group.key ∧ c.disabled = false then { c with checked := checked } else c)

/-- `invertGroup` from utils.ts. -/
def invertGroup (choices : List (NormalizedChoice V)) (group : NormalizedGroup V) :
    List (NormalizedChoice V) :=
  choices.map (fun c =>
    if c.groupKey = group.key ∧ c.disabled = false then { c with checked := !c.checked } else c)

/-- `toggleAll` from utils.ts. -/
def toggleAll (choices : List (NormalizedChoice V)) (checked : Bool) :
    List (NormalizedChoice V) :=
  choices.map (fun c => if c.disabled = false then { c with checked := checked } else c)

/-- `invertAll` from utils.ts. -/
def invertAll (choices : List (NormalizedChoice V)) : List (NormalizedChoice V) :=
  choices.map (fun c => if c.disabled = false then { c with checked := !c.checked } else c)

/-- Session status (`Status` of the prompt framework, restricted to the
values this prompt uses). -/
inductive Status where
  | idle
  | loading
  | done
deriving DecidableEq

/-- Synchronous result of the `validate` callback: `true`, `false`, or an
error string. -/
inductive VResult where
  | isTrue
  | isFalse
  | msg (m : String)

/-- The prompt configuration fields consumed by the state engine. -/
structure Config (V : Type) where
  searchable : Bool := false
  required : Bool := false
  validate : Option (Selections V → VResult) := none

/-- The session state held by the prompt's hooks. -/
structure SessionState (V : Type) where
  status : Status
  choices : List (Item V)
  searchQuery : Str
  errorMessage : Option String
  cursorIndex : Int
deriving DecidableEq

/-- Abstract key event, one constructor per handled binding. -/
inductive Action where
  | enter
  | up
  | down
  | space
  | backspace
  | escape
  | typeChar (ch : Char)
  | globalToggle
  | globalInvert
  | groupToggle
  | groupInvert
  | tab
  | shiftTab

/-- `Object.values(selections).some((arr) => arr.length > 0)`. -/
def hasSelection (sel : Selections V) : Bool := sel.any (fun e => e.2.length > 0)

/-- `filteredChoices[cursor]` with a possibly negative cursor. -/
def getAt (l : List (Item V)) (i : Int) : Option (Item V) :=
  if i < 0 then none else l.get? i.toNat

/-- The character class accepted as search input:
`/^[a-zA-Z0-9\-_./\s]$/`. -/
def allowedSearchChar (ch : Char) : Bool :=
  ch.isAlpha || ch.isDigit || ch = '-' || ch = '_' || ch = '.' || ch = '/' ||
    ch = ' ' || ch = '\t' || ch = '\n' || ch = '\r'

/-- The space-key update of the canonical choices: flip every entry whose
`value` and `groupKey` properties are `===` those of the cursor item. -/
def spaceToggleOp (choices : List (Item V)) (currentItem : Item V) : List (Item V) :=
  choices.map (fun c =>
    if entryValue c = entryValue currentItem ∧ entryGroupKey c = entryGroupKey currentItem
    then setChecked c (!entryChecked c) else c)

/-- The global toggle-all handler (Ctrl+A): visibility is a set of
`value` properties of the non-disabled, non-separator filtered entries. -/
def globalToggleAllOp (choices filteredChoices : List (Item V)) : List (Item V) :=
  let visibleChoices := filteredChoices.filter (fun c => !isSeparator c && !entryDisabled c)
  let allVisibleChecked := visibleChoices.all entryChecked
  let visibleValues := visibleChoices.map entryValue
  choices.map (fun c =>
    if entryDisabled c = false ∧ entryValue c ∈ visibleValues
    then setChecked c (!allVisibleChecked) else c)

/-- The global invert handler (Ctrl+I). -/
def globalInvertOp (choices filteredChoices : List (Item V)) : List (Item V) :=
  let visibleChoices := filteredChoices.filter (fun c => !isSeparator c && !entryDisabled c)
  let visibleValues := visibleChoices.map entryValue
  choices.map (fun c =>
    if entryDisabled c = false ∧ entryValue c ∈ visibleValues
    then setChecked c (!entryChecked c) else c)

/-- The per-group toggle handler (Shift+A) for the group with key `gkey`. -/
def groupToggleAllOp (choices filteredChoices : List (Item V)) (gkey : String) :
    List (Item V) :=
  let visibleGroupChoices := filteredChoices.filter
    (fun c => !isSeparator c && entryGroupKey c = some gkey && !entryDisabled c)
  let allVisibleChecked := visibleGroupChoices.all entryChecked
  let visibleValues := visibleGroupChoices.map entryValue
  choices.map (fun c =>
    if entryGroupKey c = some gkey ∧ entryDisabled c = false ∧ entryValue c ∈ visibleValues
    then setChecked c (!allVisibleChecked) else c)

/-- The per-group invert handler (Shift+I) for the group with key `gkey`. -/
def groupInvertOp (choices filteredChoices : List (Item V)) (gkey : String) :
    List (Item V) :=
  let visibleGroupChoices := filteredChoices.filter
    (fun c => !isSeparator c && entryGroupKey c = some gkey && !entryDisabled c)
  let visibleValues := visibleGroupChoices.map entryValue
  choices.map (fun c =>
    if entryGroupKey c = some gkey ∧ entryDisabled c = false ∧ entryValue c ∈ visibleValues
    then setChecked c (!entryChecked c) else c)

/-- The keypress handler of the prompt, as a transition function on the
session state.  `initialGroups` is the group-bounds table computed once at
session start. -/
def step (initialGroups : List (NormalizedGroup V)) (cfg : Config V)
    (s : SessionState V) (a : Action) : SessionState V :=
  if s.status ≠ Status.idle then s
  else
    let s := { s with errorMessage := none }
    let fr := filterBySearch s.choices initialGroups s.searchQuery
    match a with
    | .enter =>
        let selections := buildSelections s.choices initialGroups
        if cfg.required ∧ hasSelection selections = false then
          { s with errorMessage := some "At least one selection is required" }
        else
          match cfg.validate with
          | some f =>
              match f selections with
              | .isTrue => { s with status := .done }
              | .isFalse => { s with errorMessage := some "Invalid selection" }
              | .msg m => { s with errorMessage := some m }
          | none => { s with status := .done }
    | .up => { s with cursorIndex := findNextSelectableIndex fr.1 s.cursorIndex (-1) }
    | .down => { s with cursorIndex := findNextSelectableIndex fr.1 s.cursorIndex 1 }
    | .space =>
        match getAt fr.1 s.cursorIndex with
        | some it =>
            if isSelectableItem it then { s with choices := spaceToggleOp s.choices it }
            else s
        | none => s
    | .backspace =>
        if cfg.searchable then { s with searchQuery := s.searchQuery.dropLast, cursorIndex := 0 }
        else s
    | .escape =>
        if cfg.searchable then
          { s with searchQuery := [], cursorIndex := (findFirstSelectableIndex s.choices : Int) }
        else s
    | .typeChar ch =>
        if cfg.searchable ∧ allowedSearchChar ch then
          { s with searchQuery := s.searchQuery ++ [ch], cursorIndex := 0 }
        else s
    | .globalToggle => { s with choices := globalToggleAllOp s.choices fr.1 }
    | .globalInvert => { s with choices := globalInvertOp s.choices fr.1 }
    | .groupToggle =>
        match getCurrentGroup s.cursorIndex fr.2 with
        | some g => { s with choices := groupToggleAllOp s.choices fr.1 g.key }
        | none => s
    | .groupInvert =>
        match getCurrentGroup s.cursorIndex fr.2 with
        | some g => { s with choices := groupInvertOp s.choices fr.1 g.key }
        | none => s
    | .tab =>
        match getCurrentGroup s.cursorIndex fr.2 with
        | some g =>
            if 1 < fr.2.length then
              match fr.2.findIdx? (fun g2 => g2.key = g.key) with
              | some i =>
                  match fr.2.get? ((i + 1) % fr.2.length) with
                  | some ng => { s with cursorIndex := (ng.startIndex : Int) }
                  | none => s
              | none => s
            else s
        | none => s
    | .shiftTab =>
        match getCurrentGroup s.cursorIndex fr.2 with
        | some g =>
            if 1 < fr.2.length then
              match fr.2.findIdx? (fun g2 => g2.key = g.key) with
              | some i =>
                  match fr.2.get? (if i = 0 then fr.2.length - 1 else i - 1) with
                  | some pg => { s with cursorIndex := (pg.startIndex : Int) }
                  | none => s
              | none => s
            else s
        | none => s

/-- The initial session state: status idle, the normalized flat sequence
with separators (only) filtered out — group headers remain in the array —
empty query, cursor 0. -/
def initialState (str : V → Str) (groups : List (Group V)) : SessionState V :=
  { status := .idle
  , choices := (normalizeGroups str groups).2.filter (fun it => !isSeparator it)
  , searchQuery := []
  , errorMessage := none
  , cursorIndex := 0 }

/-! ### Generic list helpers -/

theorem map_id_of_fixed {α : Type} (l : List α) (f : α → α) (h : ∀ a ∈ l, f a = a) :
    l.map f = l := by
  induction l with
  | nil => rfl
  | cons a t ih =>
      simp only [List.map_cons, h a (by simp)]
      rw [ih (fun b hb => h b (by simp [hb]))]

theorem forall2_map_self {α : Type} (R : α → α → Prop) (l : List α) (f : α → α)
    (h : ∀ a ∈ l, R a (f a)) : List.Forall₂ R l (l.map f) := by
  induction l with
  | nil => simp
  | cons a t ih =>
      simp only [List.map_cons]
      exact List.Forall₂.cons (h a (by simp)) (ih (fun b hb => h b (by simp [hb])))

/-! ### Structure of `filterBySearch` -/

/-- The fresh header emitted for a group by `filterBySearch`. -/
def hdrItem (g : NormalizedGroup V) : Item V := Item.header g.key g.label g.icon false

theorem filterBySearchAux_fst (flat : List (Item V)) (q : Str) :
    ∀ (gs : List (NormalizedGroup V)) (i : Nat),
      (filterBySearchAux flat q gs i).1 =
        ((gs.filter (fun g => !(matchingChoices flat g.key q).isEmpty)).map
          (fun g => hdrItem g :: (matchingChoices flat g.key q).map Item.choice)).flatten := by
  intro gs
  induction gs with
  | nil => intro i; rfl
  | cons g gs ih =>
      intro i
      by_cases h : (matchingChoices flat g.key q).isEmpty <;>
        simp [filterBySearchAux, h, ih, hdrItem]

theorem filterBySearchAux_snd (flat : List (Item V)) (q : Str) :
    ∀ (gs : List (NormalizedGroup V)) (i : Nat),
      (filterBySearchAux flat q gs i).2.map (fun h => (h.key, h.label, h.icon, h.choices)) =
        (gs.filter (fun g => !(matchingChoices flat g.key q).isEmpty)).map
          (fun g => (g.key, g.label, g.icon, matchingChoices flat g.key q)) := by
  intro gs
  induction gs with
  | nil => intro i; rfl
  | cons g gs ih =>
      intro i
      by_cases h : (matchingChoices flat g.key q).isEmpty <;>
        simp [filterBySearchAux, h, ih]

theorem filterBySearchAux_cons_skip (flat : List (Item V)) (q : Str)
    (g : NormalizedGroup V) (gs : List (NormalizedGroup V)) (i : Nat)
    (hm : (matchingChoices flat g.key q).isEmpty = true) :
    filterBySearchAux flat q (g :: gs) i = filterBySearchAux flat q gs i := by
  rw [filterBySearchAux]
  simp [hm]

theorem filterBySearchAux_cons_keep (flat : List (Item V)) (q : Str)
    (g : NormalizedGroup V) (gs : List (NormalizedGroup V)) (i : Nat)
    (hm : (matchingChoices flat g.key q).isEmpty = false) :
    filterBySearchAux flat q (g :: gs) i =
      (Item.header g.key g.label g.icon false ::
        ((matchingChoices flat g.key q).map Item.choice ++
          (filterBySearchAux flat q gs (i + 1 + (matchingChoices flat g.key q).length)).1),
       { g with startIndex := i
              , endIndex := i + (matchingChoices flat g.key q).length
              , choices := matchingChoices flat g.key q } ::
        (filterBySearchAux flat q gs (i + 1 + (matchingChoices flat g.key q).length)).2) := by
  rw [filterBySearchAux]
  simp [hm]

theorem filterBySearchAux_pos (flat : List (Item V)) (q : Str) :
    ∀ (gs : List (NormalizedGroup V)) (i : Nat),
      ∀ h ∈ (filterBySearchAux flat q gs i).2,
        i ≤ h.startIndex ∧ h.endIndex = h.startIndex + h.choices.length ∧
          (Item.header h.key h.label h.icon false :: h.choices.map Item.choice) <+:
            (filterBySearchAux flat q gs i).1.drop (h.startIndex - i) := by
  intro gs
  induction gs with
  | nil => intro i h hmem; simp [filterBySearchAux] at hmem
  | cons g gs ih =>
      intro i h hmem
      by_cases hm : (matchingChoices flat g.key q).isEmpty = true
      · rw [filterBySearchAux_cons_skip flat q g gs i hm] at hmem ⊢
        exact ih i h hmem
      · have hm2 : (matchingChoices flat g.key q).isEmpty = false := by
          simpa using hm
        rw [filterBySearchAux_cons_keep flat q g gs i hm2] at hmem ⊢
        rcases List.mem_cons.mp hmem with rfl | hmem2
        · dsimp only
          refine ⟨le_rfl, by simp, ?_⟩
          rw [Nat.sub_self, List.drop_zero]
          have hsplit :
              Item.header g.key g.label g.icon false ::
                ((matchingChoices flat g.key q).map Item.choice ++
                  (filterBySearchAux flat q gs
                    (i + 1 + (matchingChoices flat g.key q).length)).1) =
              (Item.header g.key g.label g.icon false ::
                (matchingChoices flat g.key q).map Item.choice) ++
                (filterBySearchAux flat q gs
                  (i + 1 + (matchingChoices flat g.key q).length)).1 := by
            simp
          rw [hsplit]
          exact List.prefix_append _ _
        · obtain ⟨h1, h2, h3⟩ := ih (i + 1 + (matchingChoices flat g.key q).length) h hmem2
          refine ⟨by omega, h2, ?_⟩
          have hsplit :
              Item.header g.key g.label g.icon false ::
                ((matchingChoices flat g.key q).map Item.choice ++
                  (filterBySearchAux flat q gs
                    (i + 1 + (matchingChoices flat g.key q).length)).1) =
              (Item.header g.key g.label g.icon false ::
                (matchingChoices flat g.key q).map Item.choice) ++
                (filterBySearchAux flat q gs
                  (i + 1 + (matchingChoices flat g.key q).length)).1 := by
            simp
          rw [hsplit]
          have hlen : h.startIndex - i =
              (Item.header g.key g.label g.icon false ::
                (matchingChoices flat g.key q).map Item.choice).length +
                (h.startIndex - (i + 1 + (matchingChoices flat g.key q).length)) := by
            simp only [List.length_cons, List.length_map]
            omega
          rw [hlen, List.drop_append]
          exact h3

theorem mem_matchingChoices (flat : List (Item V)) (key : String) (q : Str)
    (c : NormalizedChoice V) :
    c ∈ matchingChoices flat key q ↔
      Item.choice c ∈ flat ∧ c.groupKey = key ∧ matchesQuery q c.name = true := by
  simp only [matchingChoices, groupChoicesOf, List.mem_filter, List.mem_filterMap]
  constructor
  · rintro ⟨⟨it, hit, heq⟩, hmq⟩
    cases it with
    | choice c2 =>
        by_cases hk : c2.groupKey = key
        · simp only [hk, if_true, Option.some_inj] at heq
          subst heq
          exact ⟨hit, hk, hmq⟩
        · simp [hk] at heq
    | header a b d e => simp at heq
    | separator s => simp at heq
  · rintro ⟨hmem, hk, hmq⟩
    exact ⟨⟨Item.choice c, hmem, by simp [hk]⟩, hmq⟩

theorem mem_filterBySearch_fst (flat : List (Item V)) (gs : List (NormalizedGroup V))
    (q : Str) (c : NormalizedChoice V) :
    Item.choice c ∈ (filterBySearch flat gs q).1 ↔
      (∃ g ∈ gs, c.groupKey = g.key) ∧ Item.choice c ∈ flat ∧
        matchesQuery q c.name = true := by
  rw [filterBySearch, filterBySearchAux_fst]
  simp only [List.mem_flatten, List.mem_map, List.mem_filter]
  constructor
  · rintro ⟨l, ⟨g, ⟨hg, _⟩, rfl⟩, hmem⟩
    rcases List.mem_cons.mp hmem with heq | hmem2
    · simp [hdrItem] at heq
    · have hc2 : c ∈ matchingChoices flat g.key q := by
        simpa using hmem2
      obtain ⟨h1, h2, h3⟩ := (mem_matchingChoices flat g.key q c).mp hc2
      exact ⟨⟨g, hg, h2⟩, h1, h3⟩
  · rintro ⟨⟨g, hg, hk⟩, hmem, hmq⟩
    have hc : c ∈ matchingChoices flat g.key q :=
      (mem_matchingChoices flat g.key q c).mpr ⟨hmem, hk, hmq⟩
    refine ⟨hdrItem g :: (matchingChoices flat g.key q).map Item.choice,
      ⟨g, ⟨hg, ?_⟩, rfl⟩, by simp [hdrItem, hc]⟩
    simp only [Bool.not_eq_true']
    exact List.isEmpty_eq_false_iff_exists_mem.mpr ⟨c, hc⟩

theorem filterBySearch_fst_eq_nil_iff (flat : List (Item V))
    (gs : List (NormalizedGroup V)) (q : Str) :
    (filterBySearch flat gs q).1 = [] ↔ ∀ g ∈ gs, matchingChoices flat g.key q = [] := by
  rw [filterBySearch, filterBySearchAux_fst]
  rw [List.flatten_eq_nil_iff]
  constructor
  · intro h g hg
    by_cases hm : (matchingChoices flat g.key q).isEmpty
    · exact List.isEmpty_iff.mp hm
    · have := h (hdrItem g :: (matchingChoices flat g.key q).map Item.choice)
        (List.mem_map_of_mem _ (List.mem_filter.mpr ⟨hg, by simp [hm]⟩))
      simp at this
  · intro h l hl
    obtain ⟨g, hg, rfl⟩ := List.mem_map.mp hl
    have h2 := h g (List.mem_filter.mp hg).1
    have h3 := (List.mem_filter.mp hg).2
    simp [h2] at h3

theorem filterBySearch_snd_eq_nil (flat : List (Item V))
    (gs : List (NormalizedGroup V)) (q : Str)
    (h : (filterBySearch flat gs q).1 = []) : (filterBySearch flat gs q).2 = [] := by
  have hall := (filterBySearch_fst_eq_nil_iff flat gs q).mp h
  have hsk := filterBySearchAux_snd flat q gs 0
  rw [show filterBySearchAux flat q gs 0 = filterBySearch flat gs q from rfl] at hsk
  have hfil0 : gs.filter (fun g => !(matchingChoices flat g.key q).isEmpty) = [] := by
    rw [List.filter_eq_nil_iff]
    intro g hg
    simp [hall g hg]
  rw [hfil0] at hsk
  simpa using hsk

/-! ### Properties of `buildSelections` -/

theorem any_congr_of {a : Type} (l : List a) (p q : a → Bool)
    (h : ∀ x ∈ l, p x = q x) : l.any p = l.any q := by
  induction l with
  | nil => rfl
  | cons x t ih =>
      simp only [List.any_cons, h x (by simp)]
      rw [ih (fun y hy => h y (by simp [hy]))]

theorem lookupSel_cons (e : String × List (Option V)) (m : Selections V) (k : String) :
    lookupSel (e :: m) k = if e.1 = k then some e.2 else lookupSel m k := by
  by_cases he : e.1 = k
  · rw [lookupSel, List.find?_cons_of_pos _ (by simpa using he)]
    simp [he]
  · rw [lookupSel, List.find?_cons_of_neg _ (by simpa using he)]
    simp [he, lookupSel]

theorem pushSelection_cons (e : String × List (Option V)) (m : Selections V)
    (k2 : String) (v : Option V) :
    pushSelection (e :: m) k2 v =
      (if e.1 = k2 then (e.1, e.2 ++ [v]) else e) :: pushSelection m k2 v := by
  rw [pushSelection, pushSelection, List.map_cons]

theorem lookupSel_pushSelection (m : Selections V) (k2 k : String) (v : Option V) :
    lookupSel (pushSelection m k2 v) k =
      (lookupSel m k).map (fun l => if k = k2 then l ++ [v] else l) := by
  induction m with
  | nil => rfl
  | cons e m ih =>
      rw [pushSelection_cons, lookupSel_cons, lookupSel_cons]
      by_cases h2 : e.1 = k2
      · by_cases he : e.1 = k
        · have hkk : k = k2 := he ▸ h2
          simp [h2, he, hkk]
        · have hk2k : ¬k2 = k := fun hc => he (h2.trans hc)
          simp [h2, he, hk2k, ih]
      · by_cases he : e.1 = k
        · have hkk : ¬k = k2 := fun hc => h2 (he.trans hc)
          simp [h2, he, hkk]
        · simp [h2, he, ih]

theorem any_pushSelection (m : Selections V) (k2 k : String) (v : Option V) :
    (pushSelection m k2 v).any (fun e => e.1 = k) = m.any (fun e => e.1 = k) := by
  rw [pushSelection, List.any_map]
  apply any_congr_of
  intro e _
  by_cases hk : e.1 = k2 <;> simp [hk]

theorem lookupSel_eq_none_iff (m : Selections V) (k : String) :
    lookupSel m k = none ↔ m.any (fun e => e.1 = k) = false := by
  induction m with
  | nil => simp [lookupSel]
  | cons e m ih =>
      rw [lookupSel_cons]
      by_cases he : e.1 = k <;> simp [he, ih]

theorem lookupSel_all_nil (m : Selections V) (hm : ∀ e ∈ m, e.2 = ([] : List (Option V)))
    (k : String) :
    lookupSel m k = if m.any (fun e => e.1 = k) then some [] else none := by
  induction m with
  | nil => simp [lookupSel]
  | cons e m ih =>
      rw [lookupSel_cons]
      by_cases he : e.1 = k
      · have h2 : e.2 = ([] : List (Option V)) := hm e (by simp)
        simp [he, h2]
      · have htail := ih (fun x hx => hm x (by simp [hx]))
        rw [if_neg he, htail, List.any_cons, decide_eq_false he, Bool.false_or]

theorem initStep_all_nil (m : Selections V) (g : NormalizedGroup V)
    (hm : ∀ e ∈ m, e.2 = ([] : List (Option V))) :
    ∀ e ∈ initStep m g, e.2 = ([] : List (Option V)) := by
  intro e he
  rw [initStep] at he
  by_cases h : m.any (fun e => e.1 = g.key)
  · simp only [h, if_true] at he
    obtain ⟨e2, he2, heq⟩ := List.mem_map.mp he
    by_cases hk : e2.1 = g.key
    · simp [hk] at heq
      simp [← heq]
    · simp [hk] at heq
      exact heq ▸ hm e2 he2
  · simp only [h, if_false] at he
    rcases List.mem_append.mp he with h1 | h2
    · exact hm e h1
    · simp at h2
      simp [h2]

theorem any_initStep (m : Selections V) (g : NormalizedGroup V) (k : String) :
    (initStep m g).any (fun e => e.1 = k) =
      (m.any (fun e => e.1 = k) || decide (g.key = k)) := by
  rw [initStep]
  by_cases h : m.any (fun e => e.1 = g.key)
  · simp only [h, if_true]
    have hmap : (m.map (fun e => if e.1 = g.key then (e.1, ([] : List (Option V))) else e)).any
        (fun e => e.1 = k) = m.any (fun e => e.1 = k) := by
      rw [List.any_map]
      apply any_congr_of
      intro e _
      by_cases hk : e.1 = g.key <;> simp [hk]
    rw [hmap]
    by_cases hgk : g.key = k
    · have : m.any (fun e => e.1 = k) = true := by
        obtain ⟨e, he, hke⟩ := List.any_eq_true.mp h
        exact List.any_eq_true.mpr ⟨e, he, by simp at hke ⊢; rw [hke, hgk]⟩
      simp [this]
    · simp [hgk]
  · simp only [h, if_false]
    simp

theorem initFold_lookup (gs : List (NormalizedGroup V)) :
    ∀ (acc : Selections V), (∀ e ∈ acc, e.2 = ([] : List (Option V))) → ∀ k,
      lookupSel (gs.foldl initStep acc) k =
        if (acc.any (fun e => e.1 = k) || gs.any (fun g => decide (g.key = k))) then some []
        else none := by
  induction gs with
  | nil =>
      intro acc hacc k
      rw [List.foldl_nil, lookupSel_all_nil acc hacc k]
      simp only [List.any_nil, Bool.or_false]
  | cons g gs ih =>
      intro acc hacc k
      rw [List.foldl_cons]
      rw [ih (initStep acc g) (initStep_all_nil acc g hacc) k]
      rw [any_initStep]
      by_cases h1 : acc.any (fun e => e.1 = k) <;>
        by_cases h2 : g.key = k <;>
        simp [h1, h2]

theorem lookupSel_initSelections (gs : List (NormalizedGroup V)) (k : String) :
    lookupSel (initSelections gs) k =
      if gs.any (fun g => decide (g.key = k)) then some [] else none := by
  rw [initSelections]
  simpa using initFold_lookup gs [] (by simp) k

theorem selFold_lookup (cs : List (Item V)) :
    ∀ (m : Selections V) (k : String),
      lookupSel (cs.foldl selStep m) k =
        (lookupSel m k).map
          (fun l => l ++
            (cs.filter (fun c => entryChecked c && decide (entryGroupKey c = some k))).map
              entryValue) := by
  induction cs with
  | nil =>
      intro m k
      cases h : lookupSel m k <;> simp [h]
  | cons c cs ih =>
      intro m k
      rw [List.foldl_cons]
      by_cases hec : entryChecked c
      · cases hgk : entryGroupKey c with
        | none =>
            have hstep : selStep m c = m := by simp [selStep, hec, hgk]
            rw [hstep, ih m k]
            simp [hec, hgk]
        | some k2 =>
            by_cases ha : m.any (fun e => e.1 = k2)
            · have hstep : selStep m c = pushSelection m k2 (entryValue c) := by
                simp [selStep, hec, hgk, ha]
              rw [hstep, ih (pushSelection m k2 (entryValue c)) k,
                lookupSel_pushSelection]
              cases hl : lookupSel m k with
              | none => simp
              | some l =>
                  by_cases hk : k = k2
                  · subst hk
                    simp [hec, hgk, List.filter_cons]
                  · have : (some k2 = some k) = False := by
                      simp
                      exact fun hcon => hk hcon.symm
                    simp [hec, hgk, List.filter_cons, hk, this]
            · have hstep : selStep m c = m := by simp [selStep, hec, hgk, ha]
              rw [hstep, ih m k]
              by_cases hk : k = k2
              · subst hk
                have hnone : lookupSel m _ = none :=
                  (lookupSel_eq_none_iff m _).mpr (Bool.eq_false_iff.mpr ha)
                simp [hnone]
              · have : (some k2 = some k) = False := by
                  simp
                  exact fun hcon => hk hcon.symm
                simp [hec, hgk, List.filter_cons, this]
      · have hstep : selStep m c = m := by simp [selStep, hec]
        rw [hstep, ih m k]
        simp [hec, List.filter_cons]

theorem buildSelections_lookup (cs : List (Item V)) (gs : List (NormalizedGroup V))
    (k : String) :
    lookupSel (buildSelections cs gs) k =
      if gs.any (fun g => decide (g.key = k)) then
        some ((cs.filter (fun c => entryChecked c && decide (entryGroupKey c = some k))).map
          entryValue)
      else none := by
  rw [buildSelections, selFold_lookup cs (initSelections gs) k,
    lookupSel_initSelections gs k]
  by_cases h : gs.any (fun g => decide (g.key = k)) <;> simp [h]

/-! ### Properties of `normalizeGroups` -/

theorem groupChoicesOf_cons_header (gk l : String) (ic : Option String) (b : Bool)
    (rest : List (Item V)) (key : String) :
    groupChoicesOf (Item.header gk l ic b :: rest) key = groupChoicesOf rest key := by
  simp [groupChoicesOf]

theorem groupChoicesOf_cons_choice (c : NormalizedChoice V) (rest : List (Item V))
    (key : String) :
    groupChoicesOf (Item.choice c :: rest) key =
      if c.groupKey = key then c :: groupChoicesOf rest key
      else groupChoicesOf rest key := by
  by_cases h : c.groupKey = key <;> simp [groupChoicesOf, h]

theorem groupChoicesOf_append (l1 l2 : List (Item V)) (key : String) :
    groupChoicesOf (l1 ++ l2) key = groupChoicesOf l1 key ++ groupChoicesOf l2 key := by
  simp [groupChoicesOf, List.filterMap_append]

theorem groupChoicesOf_eq_nil_of_not_mem (l : List (Item V)) (key : String)
    (h : ∀ c : NormalizedChoice V, Item.choice c ∈ l → ¬c.groupKey = key) :
    groupChoicesOf l key = [] := by
  induction l with
  | nil => rfl
  | cons it rest ih =>
      have htail := ih (fun c hc => h c (by simp [hc]))
      cases it with
      | choice c =>
          rw [groupChoicesOf_cons_choice, if_neg (h c (by simp)), htail]
      | header a b d e => rw [groupChoicesOf_cons_header, htail]
      | separator s => simpa [groupChoicesOf] using htail

theorem groupChoicesOf_map_choice_all (ncs : List (NormalizedChoice V)) (key : String)
    (h : ∀ c ∈ ncs, c.groupKey = key) :
    groupChoicesOf (ncs.map Item.choice) key = ncs := by
  induction ncs with
  | nil => rfl
  | cons c cs ih =>
      rw [List.map_cons, groupChoicesOf_cons_choice, if_pos (h c (by simp))]
      rw [ih (fun x hx => h x (by simp [hx]))]

theorem groupChoicesOf_map_choice_none (ncs : List (NormalizedChoice V)) (key : String)
    (h : ∀ c ∈ ncs, ¬c.groupKey = key) :
    groupChoicesOf (ncs.map Item.choice) key = [] := by
  apply groupChoicesOf_eq_nil_of_not_mem
  intro c hc
  exact h c (by simpa using hc)

theorem normalizeChoices_groupKey (str : V → Str) (key : String) (gIdx : Nat) :
    ∀ (j : Nat) (cs : List (Choice V)), ∀ nc ∈ normalizeChoices str key gIdx j cs,
      nc.groupKey = key := by
  intro j cs
  induction cs generalizing j with
  | nil => intro nc h; simp [normalizeChoices] at h
  | cons c cs ih =>
      intro nc h
      rw [normalizeChoices] at h
      rcases List.mem_cons.mp h with rfl | h2
      · rfl
      · exact ih (j + 1) nc h2

theorem normalizeGroupsAux_cons (str : V → Str) (g : Group V) (gs : List (Group V))
    (gIdx fi : Nat) :
    normalizeGroupsAux str (g :: gs) gIdx fi =
      ({ key := g.key, label := g.label, icon := g.icon, startIndex := fi
       , endIndex := fi + 1 + (normalizeChoices str g.key gIdx 0 g.choices).length - 1
       , choices := normalizeChoices str g.key gIdx 0 g.choices } ::
        (normalizeGroupsAux str gs (gIdx + 1)
          (fi + 1 + (normalizeChoices str g.key gIdx 0 g.choices).length)).1,
       Item.header g.key g.label g.icon false ::
        ((normalizeChoices str g.key gIdx 0 g.choices).map Item.choice ++
          (normalizeGroupsAux str gs (gIdx + 1)
            (fi + 1 + (normalizeChoices str g.key gIdx 0 g.choices).length)).2)) := by
  rw [normalizeGroupsAux]

theorem choice_mem_normalizeGroupsAux_flat (str : V → Str) :
    ∀ (gs : List (Group V)) (gIdx fi : Nat) (c : NormalizedChoice V),
      Item.choice c ∈ (normalizeGroupsAux str gs gIdx fi).2 →
        c.groupKey ∈ gs.map Group.key := by
  intro gs
  induction gs with
  | nil => intro gIdx fi c h; simp [normalizeGroupsAux] at h
  | cons g gs ih =>
      intro gIdx fi c h
      rw [normalizeGroupsAux_cons] at h
      rcases List.mem_cons.mp h with heq | h2
      · simp at heq
      · rcases List.mem_append.mp h2 with h3 | h4
        · have h5 : c ∈ normalizeChoices str g.key gIdx 0 g.choices := by
            simpa using h3
          have := normalizeChoices_groupKey str g.key gIdx 0 g.choices c h5
          simp [this]
        · have := ih (gIdx + 1) _ c h4
          simp [this]

theorem mem_normalizeGroupsAux_fst_key (str : V → Str) :
    ∀ (gs : List (Group V)) (gIdx fi : Nat) (ng : NormalizedGroup V),
      ng ∈ (normalizeGroupsAux str gs gIdx fi).1 → ng.key ∈ gs.map Group.key := by
  intro gs
  induction gs with
  | nil => intro gIdx fi ng h; simp [normalizeGroupsAux] at h
  | cons g gs ih =>
      intro gIdx fi ng h
      rw [normalizeGroupsAux_cons] at h
      rcases List.mem_cons.mp h with rfl | h2
      · simp
      · have := ih (gIdx + 1) _ ng h2
        simp [this]

theorem groupChoicesOf_normalizeGroupsAux (str : V → Str) :
    ∀ (gs : List (Group V)) (gIdx fi : Nat), (gs.map Group.key).Nodup →
      ∀ ng ∈ (normalizeGroupsAux str gs gIdx fi).1,
        groupChoicesOf (normalizeGroupsAux str gs gIdx fi).2 ng.key = ng.choices := by
  intro gs
  induction gs with
  | nil => intro gIdx fi hnd ng h; simp [normalizeGroupsAux] at h
  | cons g gs ih =>
      intro gIdx fi hnd ng h
      rw [List.map_cons] at hnd
      have hnd2 : (gs.map Group.key).Nodup := (List.nodup_cons.mp hnd).2
      have hnotmem : g.key ∉ gs.map Group.key := (List.nodup_cons.mp hnd).1
      rw [normalizeGroupsAux_cons] at h ⊢
      rcases List.mem_cons.mp h with rfl | h2
      · rw [groupChoicesOf_cons_header, groupChoicesOf_append]
        have hall : ∀ c ∈ normalizeChoices str g.key gIdx 0 g.choices, c.groupKey = g.key :=
          normalizeChoices_groupKey str g.key gIdx 0 g.choices
        rw [groupChoicesOf_map_choice_all _ _ hall]
        have hnil : groupChoicesOf
            (normalizeGroupsAux str gs (gIdx + 1)
              (fi + 1 + (normalizeChoices str g.key gIdx 0 g.choices).length)).2 g.key = [] := by
          apply groupChoicesOf_eq_nil_of_not_mem
          intro c hc hck
          exact hnotmem (hck ▸ choice_mem_normalizeGroupsAux_flat str gs (gIdx + 1) _ c hc)
        simp [hnil]
      · have hkey : ng.key ∈ gs.map Group.key :=
          mem_normalizeGroupsAux_fst_key str gs (gIdx + 1) _ ng h2
        rw [groupChoicesOf_cons_header, groupChoicesOf_append]
        have hne : ∀ c ∈ normalizeChoices str g.key gIdx 0 g.choices, ¬c.groupKey = ng.key := by
          intro c hc hck
          have := normalizeChoices_groupKey str g.key gIdx 0 g.choices c hc
          rw [this] at hck
          exact hnotmem (hck ▸ hkey)
        rw [groupChoicesOf_map_choice_none _ _ hne]
        rw [List.nil_append]
        exact ih (gIdx + 1) _ hnd2 ng h2

theorem normalizeChoices_mem_of_mem (str : V → Str) (key : String) (gIdx : Nat) :
    ∀ (j : Nat) (cs : List (Choice V)) (c : Choice V), c ∈ cs →
      ∃ j2, normalizeChoice str key gIdx j2 c ∈ normalizeChoices str key gIdx j cs := by
  intro j cs
  induction cs generalizing j with
  | nil => intro c h; simp at h
  | cons c2 cs ih =>
      intro c h
      rcases List.mem_cons.mp h with rfl | h2
      · exact ⟨j, by rw [normalizeChoices]; simp⟩
      · obtain ⟨j2, hj2⟩ := ih (j + 1) c h2
        exact ⟨j2, by rw [normalizeChoices]; simp [hj2]⟩

theorem normalizeGroupsAux_mem_flat (str : V → Str) :
    ∀ (gs : List (Group V)) (gIdx fi : Nat) (g : Group V) (c : Choice V),
      g ∈ gs → c ∈ g.choices →
      ∃ nc : NormalizedChoice V,
        Item.choice nc ∈ (normalizeGroupsAux str gs gIdx fi).2 ∧
        nc.value = c.value ∧ nc.disabled = c.disabled.getD false ∧
        nc.checked = c.checked.getD false ∧ nc.groupKey = g.key := by
  intro gs
  induction gs with
  | nil => intro gIdx fi g c h _; simp at h
  | cons g2 gs ih =>
      intro gIdx fi g c hg hc
      rw [normalizeGroupsAux_cons]
      rcases List.mem_cons.mp hg with rfl | hg2
      · obtain ⟨j2, hj2⟩ := normalizeChoices_mem_of_mem str g.key gIdx 0 g.choices c hc
        refine ⟨normalizeChoice str g.key gIdx j2 c, ?_, rfl, rfl, rfl, rfl⟩
        simp only [List.mem_cons, List.mem_append]
        right; left
        exact List.mem_map_of_mem _ hj2
      · obtain ⟨nc, hmem, h1, h2, h3, h4⟩ := ih (gIdx + 1) _ g c hg2 hc
        refine ⟨nc, ?_, h1, h2, h3, h4⟩
        simp only [List.mem_cons, List.mem_append]
        right; right
        exact hmem

/-! ### Concrete fixtures used to evaluate the engine on specific inputs -/

/-- `String(value)` for natural-number values. -/
def natStr (n : Nat) : Str := (toString n).data

/-- One group with items `[checked:true, checked:false]` (the spec's
header-toggle example). -/
def c1Groups : List (Group Nat) :=
  [{ key := "group", label := "Group"
   , choices := [{ value := 1, checked := some true }, { value := 2 }] }]

/-- Two groups whose sole choices share the value `0` but have different
display names. -/
def c2Groups : List (Group Nat) :=
  [{ key := "g1", label := "G1", choices := [{ value := 0, name := some "apple".data }] },
   { key := "g2", label := "G2", choices := [{ value := 0, name := some "banana".data }] }]

/-- One group whose single item is pre-checked. -/
def c3Groups : List (Group Nat) :=
  [{ key := "g", label := "G", choices := [{ value := 1, checked := some true }] }]

/-- One group, one item named "apple". -/
def c7Groups : List (Group Nat) :=
  [{ key := "g", label := "G", choices := [{ value := 1, name := some "apple".data }] }]

/-- A session over `c7Groups` whose active query "z" matches nothing. -/
def c7State : SessionState Nat :=
  { initialState natStr c7Groups with searchQuery := "z".data }

/-! ### Claim theorems -/

/-- C1: with the cursor on a group's header, the toggle-current action is
claimed to perform a scoped group toggle-all, so for a group with items
`[checked:true, checked:false]` both items should end up checked and the
result should map the group to both values.  The code instead matches
canonical entries against the header's (undefined) `value`: neither item
changes, the header itself acquires `checked = true`, and the submitted
selections map `"group"` to `[undefined, 1]` rather than `[1, 2]`. -/
theorem c1_headerSpace_noGroupToggle :
    (step (normalizeGroups natStr c1Groups).1 {} (initialState natStr c1Groups)
        Action.space).choices =
      [Item.header "group" "Group" none true,
       Item.choice { value := 1, name := "1".data, description := none
                   , short := "1".data, disabled := false, checked := true
                   , groupKey := "group", groupIndex := 0, indexInGroup := 0 },
       Item.choice { value := 2, name := "2".data, description := none
                   , short := "2".data, disabled := false, checked := false
                   , groupKey := "group", groupIndex := 0, indexInGroup := 1 }] ∧
    lookupSel
      (buildSelections
        (step (normalizeGroups natStr c1Groups).1 {} (initialState natStr c1Groups)
          Action.space).choices
        (normalizeGroups natStr c1Groups).1) "group" = some [none, some 1] := by
  decide

/-- C2: the scoped global operations are claimed to leave every item whose
identity `(value, groupKey)` is outside the visibility set unchanged, even
when another group has a visible item with the same value.  With the query
"apple" active, only g1's item is visible, yet global invert flips g2's
hidden "banana" item from unchecked to checked, because the handler's
visibility set contains only `value`s. -/
theorem c2_globalInvert_touchesHidden :
    (initialState natStr c2Groups).choices.get? 3 =
      some (Item.choice { value := 0, name := "banana".data, description := none
                        , short := "banana".data, disabled := false, checked := false
                        , groupKey := "g2", groupIndex := 1, indexInGroup := 0 }) ∧
    (step (normalizeGroups natStr c2Groups).1 {}
        { initialState natStr c2Groups with searchQuery := "apple".data }
        Action.globalInvert).choices.get? 3 =
      some (Item.choice { value := 0, name := "banana".data, description := none
                        , short := "banana".data, disabled := false, checked := true
                        , groupKey := "g2", groupIndex := 1, indexInGroup := 0 }) := by
  decide

/-- C3: the scoped group toggle-all is claimed to set every visible
non-disabled item of the group to unchecked when all of them are already
checked.  With a single group whose only item is checked, the handler's
"all visible checked" computation also inspects the group's header entry
(whose `checked` is falsy), so the operation sets the item to checked
again instead of unchecking it. -/
theorem c3_groupToggle_keepsChecked :
    (step (normalizeGroups natStr c3Groups).1 {} (initialState natStr c3Groups)
        Action.groupToggle).choices =
      [Item.header "g" "G" none true,
       Item.choice { value := 1, name := "1".data, description := none, short := "1".data
                   , disabled := false, checked := true, groupKey := "g"
                   , groupIndex := 0, indexInGroup := 0 }] := by
  decide

/-- C7 counterexample: in the no-match filter state the claim says every
navigation action leaves the whole session state, including the cursor
index, unchanged.  At a concrete no-match state with cursor 0, move-down
sets the cursor to -1. -/
theorem c7_nomatch_moveDown_changesCursor :
    (filterBySearch c7State.choices (normalizeGroups natStr c7Groups).1
        c7State.searchQuery).1 = [] ∧
    c7State.searchQuery ≠ [] ∧
    c7State.cursorIndex = 0 ∧
    (step (normalizeGroups natStr c7Groups).1 {} c7State Action.down).cursorIndex = -1 := by
  decide

/-! ### Helper facts about the no-match state -/

theorem getAt_nil (i : Int) : getAt ([] : List (Item V)) i = none := by
  rw [getAt]
  split <;> simp

theorem getCurrentGroup_nil (i : Int) :
    getCurrentGroup i ([] : List (NormalizedGroup V)) = none := rfl

theorem findNextSelectableIndex_nil (cur dir : Int) :
    findNextSelectableIndex ([] : List (Item V)) cur dir = -1 := by
  rw [findNextSelectableIndex]
  simp

theorem globalToggleAllOp_no_visible (cs : List (Item V)) :
    globalToggleAllOp cs [] = cs := by
  rw [globalToggleAllOp]
  simp only [List.filter_nil, List.map_nil]
  apply map_id_of_fixed
  intro c _
  rw [if_neg]
  simp

theorem globalInvertOp_no_visible (cs : List (Item V)) :
    globalInvertOp cs [] = cs := by
  rw [globalInvertOp]
  simp only [List.filter_nil, List.map_nil]
  apply map_id_of_fixed
  intro c _
  rw [if_neg]
  simp

/-- C7 (amended): in the no-match filter state (non-empty query, empty
filtered view), every toggle/invert action and both group jumps leave the
canonical sequence, the cursor and the query unchanged (only the
transient error message is cleared), and move-up/move-down leave the
canonical sequence and the query unchanged but set the cursor index to
the sentinel `-1` instead of keeping it. -/
theorem c7_nomatch_frame (gs : List (NormalizedGroup V)) (cfg : Config V)
    (s : SessionState V) (hidle : s.status = Status.idle)
    (hfc : (filterBySearch s.choices gs s.searchQuery).1 = []) :
    step gs cfg s Action.up = { s with errorMessage := none, cursorIndex := -1 } ∧
    step gs cfg s Action.down = { s with errorMessage := none, cursorIndex := -1 } ∧
    step gs cfg s Action.space = { s with errorMessage := none } ∧
    step gs cfg s Action.globalToggle = { s with errorMessage := none } ∧
    step gs cfg s Action.globalInvert = { s with errorMessage := none } ∧
    step gs cfg s Action.groupToggle = { s with errorMessage := none } ∧
    step gs cfg s Action.groupInvert = { s with errorMessage := none } ∧
    step gs cfg s Action.tab = { s with errorMessage := none } ∧
    step gs cfg s Action.shiftTab = { s with errorMessage := none } := by
  have hfg : (filterBySearch s.choices gs s.searchQuery).2 = [] :=
    filterBySearch_snd_eq_nil s.choices gs s.searchQuery hfc
  refine ⟨?_, ?_, ?_, ?_, ?_, ?_, ?_, ?_, ?_⟩ <;>
    simp [step, hidle, hfc, hfg, getAt_nil, getCurrentGroup_nil,
      findNextSelectableIndex_nil, globalToggleAllOp_no_visible,
      globalInvertOp_no_visible]

/-- C8: on submit with the required flag set and zero selections the
session reports the fixed inline error and stays idle with its canonical
sequence, cursor and query intact; on a synchronous non-`true` validation
result the inline error is the returned string when one is provided and
the generic "Invalid selection" otherwise, again leaving the rest of the
state untouched. -/
theorem c8_submit_errors :
    (∀ (gs : List (NormalizedGroup V)) (cfg : Config V) (s : SessionState V),
      s.status = Status.idle → cfg.required = true →
      hasSelection (buildSelections s.choices gs) = false →
      step gs cfg s Action.enter =
        { s with errorMessage := some "At least one selection is required" }) ∧
    (∀ (gs : List (NormalizedGroup V)) (cfg : Config V) (s : SessionState V)
        (f : Selections V → VResult),
      s.status = Status.idle →
      (cfg.required = true → hasSelection (buildSelections s.choices gs) = true) →
      cfg.validate = some f →
      f (buildSelections s.choices gs) = VResult.isFalse →
      step gs cfg s Action.enter = { s with errorMessage := some "Invalid selection" }) ∧
    (∀ (gs : List (NormalizedGroup V)) (cfg : Config V) (s : SessionState V)
        (f : Selections V → VResult) (m : String),
      s.status = Status.idle →
      (cfg.required = true → hasSelection (buildSelections s.choices gs) = true) →
      cfg.validate = some f →
      f (buildSelections s.choices gs) = VResult.msg m →
      step gs cfg s Action.enter = { s with errorMessage := some m }) := by
  refine ⟨?_, ?_, ?_⟩
  · intro gs cfg s hidle hreq hsel
    simp [step, hidle, hreq, hsel]
  · intro gs cfg s f hidle hguard hval hres
    by_cases hreq : cfg.required = true
    · simp [step, hidle, hreq, hguard hreq, hval, hres]
    · simp at hreq
      simp [step, hidle, hreq, hval, hres]
  · intro gs cfg s f m hidle hguard hval hres
    by_cases hreq : cfg.required = true
    · simp [step, hidle, hreq, hguard hreq, hval, hres]
    · simp at hreq
      simp [step, hidle, hreq, hval, hres]

/-- Closed instantiation of `c8_submit_errors`: a required session with no
selections errors on submit, and sessions whose validators reject with
`false` or with a custom string produce the corresponding messages. -/
theorem c8_submit_errors_witness :
    step (normalizeGroups natStr c3Groups).1 { required := true }
        { initialState natStr c3Groups with choices := [] } Action.enter =
      { initialState natStr c3Groups with
          choices := [], errorMessage := some "At least one selection is required" } ∧
    step (normalizeGroups natStr c3Groups).1
        { validate := some (fun _ => VResult.isFalse) }
        (initialState natStr c3Groups) Action.enter =
      { initialState natStr c3Groups with errorMessage := some "Invalid selection" } ∧
    step (normalizeGroups natStr c3Groups).1
        { validate := some (fun _ => VResult.msg "bad") }
        (initialState natStr c3Groups) Action.enter =
      { initialState natStr c3Groups with errorMessage := some "bad" } := by
  refine ⟨?_, ?_, ?_⟩
  · exact c8_submit_errors.1 _ _ _ (by decide) rfl (by decide)
  · exact c8_submit_errors.2.1 _ _ _ _ (by decide) (by intro h; simp at h) rfl rfl
  · exact c8_submit_errors.2.2 _ _ _ _ _ (by decide) (by intro h; simp at h) rfl rfl

/-- Closed instantiation of `c7_nomatch_frame` at a concrete no-match
session: move-up sets the cursor to -1 and global invert leaves the
state (minus the cleared error message) unchanged. -/
theorem c7_nomatch_frame_witness :
    step (normalizeGroups natStr c7Groups).1 {} c7State Action.up =
      { c7State with errorMessage := none, cursorIndex := -1 } ∧
    step (normalizeGroups natStr c7Groups).1 {} c7State Action.globalInvert =
      { c7State with errorMessage := none } := by
  refine ⟨?_, ?_⟩
  · exact (c7_nomatch_frame (normalizeGroups natStr c7Groups).1 {} c7State
      (by decide) (by decide)).1
  · exact (c7_nomatch_frame (normalizeGroups natStr c7Groups).1 {} c7State
      (by decide) (by decide)).2.2.2.2.1

/-! ### Field agreement up to `checked` -/

/-- Two runtime entries that agree on every property except possibly
`checked`. -/
def agreesExceptChecked (a b : Item V) : Prop :=
  entryValue a = entryValue b ∧ entryName a = entryName b ∧
  entryDescription a = entryDescription b ∧ entryShort a = entryShort b ∧
  entryDisabled a = entryDisabled b ∧ entryGroupKey a = entryGroupKey b ∧
  entryGroupIndex a = entryGroupIndex b ∧ entryIndexInGroup a = entryIndexInGroup b

/-- Two normalized choices that agree on every field except possibly
`checked`. -/
def choiceAgreesExceptChecked (a b : NormalizedChoice V) : Prop :=
  a.value = b.value ∧ a.name = b.name ∧ a.description = b.description ∧
  a.short = b.short ∧ a.disabled = b.disabled ∧ a.groupKey = b.groupKey ∧
  a.groupIndex = b.groupIndex ∧ a.indexInGroup = b.indexInGroup

theorem agreesExceptChecked_refl (a : Item V) : agreesExceptChecked a a :=
  ⟨rfl, rfl, rfl, rfl, rfl, rfl, rfl, rfl⟩

theorem setChecked_agrees (a : Item V) (b : Bool) :
    agreesExceptChecked a (setChecked a b) := by
  cases a <;>
    simp [agreesExceptChecked, setChecked, entryValue, entryName, entryDescription,
      entryShort, entryDisabled, entryGroupKey, entryGroupIndex, entryIndexInGroup]

theorem agrees_of_ite (c : Item V) (P : Prop) [Decidable P] (b : Bool) :
    agreesExceptChecked c (if P then setChecked c b else c) := by
  by_cases h : P
  · rw [if_pos h]; exact setChecked_agrees c b
  · rw [if_neg h]; exact agreesExceptChecked_refl c

theorem choiceAgrees_of_ite (c : NormalizedChoice V) (P : Prop) [Decidable P] (b : Bool) :
    choiceAgreesExceptChecked c (if P then { c with checked := b } else c) := by
  by_cases h : P
  · rw [if_pos h]; exact ⟨rfl, rfl, rfl, rfl, rfl, rfl, rfl, rfl⟩
  · rw [if_neg h]; exact ⟨rfl, rfl, rfl, rfl, rfl, rfl, rfl, rfl⟩

/-- C9: every selection operation — the single space toggle, the
per-group toggle-all and invert, the global toggle-all and invert, and
the four utils-level variants — returns a sequence of the same length in
which the element at each position agrees with the input element on
every property (value, name, description, short, disabled, groupKey,
groupIndex, indexInGroup) except possibly `checked`. -/
theorem c9_ops_frame :
    (∀ (cs : List (Item V)) (t : Item V),
      (spaceToggleOp cs t).length = cs.length ∧
      List.Forall₂ agreesExceptChecked cs (spaceToggleOp cs t)) ∧
    (∀ (cs fc : List (Item V)) (gk : String),
      (groupToggleAllOp cs fc gk).length = cs.length ∧
      List.Forall₂ agreesExceptChecked cs (groupToggleAllOp cs fc gk)) ∧
    (∀ (cs fc : List (Item V)) (gk : String),
      (groupInvertOp cs fc gk).length = cs.length ∧
      List.Forall₂ agreesExceptChecked cs (groupInvertOp cs fc gk)) ∧
    (∀ (cs fc : List (Item V)),
      (globalToggleAllOp cs fc).length = cs.length ∧
      List.Forall₂ agreesExceptChecked cs (globalToggleAllOp cs fc)) ∧
    (∀ (cs fc : List (Item V)),
      (globalInvertOp cs fc).length = cs.length ∧
      List.Forall₂ agreesExceptChecked cs (globalInvertOp cs fc)) ∧
    (∀ (cs : List (NormalizedChoice V)) (g : NormalizedGroup V) (b : Bool),
      List.Forall₂ choiceAgreesExceptChecked cs (toggleGroup cs g b)) ∧
    (∀ (cs : List (NormalizedChoice V)) (g : NormalizedGroup V),
      List.Forall₂ choiceAgreesExceptChecked cs (invertGroup cs g)) ∧
    (∀ (cs : List (NormalizedChoice V)) (b : Bool),
      List.Forall₂ choiceAgreesExceptChecked cs (toggleAll cs b)) ∧
    (∀ (cs : List (NormalizedChoice V)),
      List.Forall₂ choiceAgreesExceptChecked cs (invertAll cs)) := by
  refine ⟨?_, ?_, ?_, ?_, ?_, ?_, ?_, ?_, ?_⟩
  · intro cs t
    exact ⟨by simp [spaceToggleOp], forall2_map_self _ cs _ (fun c _ => agrees_of_ite c _ _)⟩
  · intro cs fc gk
    exact ⟨by simp [groupToggleAllOp], forall2_map_self _ cs _ (fun c _ => agrees_of_ite c _ _)⟩
  · intro cs fc gk
    exact ⟨by simp [groupInvertOp], forall2_map_self _ cs _ (fun c _ => agrees_of_ite c _ _)⟩
  · intro cs fc
    exact ⟨by simp [globalToggleAllOp], forall2_map_self _ cs _ (fun c _ => agrees_of_ite c _ _)⟩
  · intro cs fc
    exact ⟨by simp [globalInvertOp], forall2_map_self _ cs _ (fun c _ => agrees_of_ite c _ _)⟩
  · intro cs g b
    exact forall2_map_self _ cs _ (fun c _ => choiceAgrees_of_ite c _ _)
  · intro cs g
    exact forall2_map_self _ cs _ (fun c _ => choiceAgrees_of_ite c _ _)
  · intro cs b
    exact forall2_map_self _ cs _ (fun c _ => choiceAgrees_of_ite c _ _)
  · intro cs
    exact forall2_map_self _ cs _ (fun c _ => choiceAgrees_of_ite c _ _)

/-- C4: the search filter lower-cases the query and a choice matches iff
its lower-cased display name contains it as a substring, the empty query
matching everything; the filtered sequence is, group by group in input
order, a header followed by the group's matching canonical choices, with
groups that have no match omitted entirely; each filtered group's bounds
are freshly computed (its end index is its start index plus its match
count, and the filtered sequence starting at its start index begins with
its header followed by its matches); and when no group matches at all
both outputs are empty. -/
theorem c4_filterBySearch_spec :
    (∀ (q name : Str),
      matchesQuery q name = true ↔ (q = [] ∨ strLower q <:+: strLower name)) ∧
    (∀ (flat : List (Item V)) (gs : List (NormalizedGroup V)) (q : Str),
      (filterBySearch flat gs q).1 =
        ((gs.filter (fun g => !(matchingChoices flat g.key q).isEmpty)).map
          (fun g => hdrItem g :: (matchingChoices flat g.key q).map Item.choice)).flatten) ∧
    (∀ (flat : List (Item V)) (gs : List (NormalizedGroup V)) (q : Str),
      (filterBySearch flat gs q).2.map (fun h => (h.key, h.label, h.icon, h.choices)) =
        (gs.filter (fun g => !(matchingChoices flat g.key q).isEmpty)).map
          (fun g => (g.key, g.label, g.icon, matchingChoices flat g.key q))) ∧
    (∀ (flat : List (Item V)) (gs : List (NormalizedGroup V)) (q : Str),
      ∀ h ∈ (filterBySearch flat gs q).2,
        h.endIndex = h.startIndex + h.choices.length ∧
        (Item.header h.key h.label h.icon false :: h.choices.map Item.choice) <+:
          (filterBySearch flat gs q).1.drop h.startIndex) ∧
    (∀ (flat : List (Item V)) (gs : List (NormalizedGroup V)) (q : Str),
      (∀ g ∈ gs, matchingChoices flat g.key q = []) →
      (filterBySearch flat gs q).1 = [] ∧ (filterBySearch flat gs q).2 = []) := by
  refine ⟨?_, ?_, ?_, ?_, ?_⟩
  · intro q name
    simp [matchesQuery, strIncludes, List.isEmpty_iff]
  · intro flat gs q
    exact filterBySearchAux_fst flat q gs 0
  · intro flat gs q
    exact filterBySearchAux_snd flat q gs 0
  · intro flat gs q h hmem
    obtain ⟨_, h2, h3⟩ := filterBySearchAux_pos flat q gs 0 h hmem
    rw [Nat.sub_zero] at h3
    exact ⟨h2, h3⟩
  · intro flat gs q hnone
    have h1 : (filterBySearch flat gs q).1 = [] :=
      (filterBySearch_fst_eq_nil_iff flat gs q).mpr hnone
    exact ⟨h1, filterBySearch_snd_eq_nil flat gs q h1⟩

/-- Closed instantiation of `c4_filterBySearch_spec`: the query "z"
matches nothing in the "apple" session, so both filter outputs are empty,
and with the empty query the sole filtered group has fresh bounds 0..1
and the filtered sequence starts with its header followed by its match. -/
theorem c4_filterBySearch_spec_witness :
    ((filterBySearch (initialState natStr c7Groups).choices
        (normalizeGroups natStr c7Groups).1 "z".data).1 = [] ∧
      (filterBySearch (initialState natStr c7Groups).choices
        (normalizeGroups natStr c7Groups).1 "z".data).2 = []) ∧
    ((1 : Nat) = 0 + [({ value := 1, name := "apple".data, description := none
                       , short := "apple".data, disabled := false, checked := false
                       , groupKey := "g", groupIndex := 0, indexInGroup := 0 } :
                        NormalizedChoice Nat)].length ∧
      (Item.header "g" "G" none false ::
        [({ value := 1, name := "apple".data, description := none
          , short := "apple".data, disabled := false, checked := false
          , groupKey := "g", groupIndex := 0, indexInGroup := 0 } :
           NormalizedChoice Nat)].map Item.choice) <+:
        (filterBySearch (initialState natStr c7Groups).choices
          (normalizeGroups natStr c7Groups).1 []).1.drop 0) := by
  refine ⟨?_, ?_⟩
  · exact c4_filterBySearch_spec.2.2.2.2 (initialState natStr c7Groups).choices
      (normalizeGroups natStr c7Groups).1 "z".data (by decide)
  · exact c4_filterBySearch_spec.2.2.2.1 (initialState natStr c7Groups).choices
      (normalizeGroups natStr c7Groups).1 []
      { key := "g", label := "G", icon := none, startIndex := 0, endIndex := 1
      , choices := [{ value := 1, name := "apple".data, description := none
                    , short := "apple".data, disabled := false, checked := false
                    , groupKey := "g", groupIndex := 0, indexInGroup := 0 }] }
      (by decide)

/-- C5: the filtered view reflects, never mutates, canonical selection
state: every choice entry of any filtered view is literally an element of
the canonical sequence (so computing a view changes no checked flag), and
checking an unchecked item and then clearing the query — any query typed
in between is a pure projection of the unchanged canonical sequence —
shows that item again, still checked. -/
theorem c5_filter_preserves_selection :
    (∀ (cs : List (Item V)) (gs : List (NormalizedGroup V)) (q : Str)
        (c : NormalizedChoice V),
      Item.choice c ∈ (filterBySearch cs gs q).1 → Item.choice c ∈ cs) ∧
    (∀ (cs : List (Item V)) (gs : List (NormalizedGroup V)) (c : NormalizedChoice V),
      Item.choice c ∈ cs → c.checked = false → (∃ g ∈ gs, c.groupKey = g.key) →
      ∃ c2 : NormalizedChoice V,
        Item.choice c2 ∈ (filterBySearch (spaceToggleOp cs (Item.choice c)) gs []).1 ∧
        c2.value = c.value ∧ c2.groupKey = c.groupKey ∧ c2.checked = true) := by
  refine ⟨?_, ?_⟩
  · intro cs gs q c h
    exact ((mem_filterBySearch_fst cs gs q c).mp h).2.1
  · intro cs gs c hmem hunchecked hg
    refine ⟨{ c with checked := true }, ?_, rfl, rfl, rfl⟩
    apply (mem_filterBySearch_fst _ gs [] _).mpr
    refine ⟨by simpa using hg, ?_, by simp [matchesQuery]⟩
    have hmm : Item.choice { c with checked := true } ∈
        cs.map (fun x => if entryValue x = entryValue (Item.choice c) ∧
            entryGroupKey x = entryGroupKey (Item.choice c)
          then setChecked x (!entryChecked x) else x) := by
      apply List.mem_map.mpr
      refine ⟨Item.choice c, hmem, ?_⟩
      simp [setChecked, entryChecked, hunchecked]
    exact hmm

/-- The canonical entry for the "apple" item of `c7Groups`. -/
def c5Apple : NormalizedChoice Nat :=
  { value := 1, name := "apple".data, description := none, short := "apple".data
  , disabled := false, checked := false, groupKey := "g", groupIndex := 0
  , indexInGroup := 0 }

/-- Closed instantiation of `c5_filter_preserves_selection`: toggling the
unchecked "apple" item and then filtering with the empty query shows an
entry with its identity, checked. -/
theorem c5_filter_preserves_selection_witness :
    ∃ c2 : NormalizedChoice Nat,
      Item.choice c2 ∈ (filterBySearch
        (spaceToggleOp (initialState natStr c7Groups).choices (Item.choice c5Apple))
        (normalizeGroups natStr c7Groups).1 []).1 ∧
      c2.value = c5Apple.value ∧ c2.groupKey = c5Apple.groupKey ∧ c2.checked = true :=
  c5_filter_preserves_selection.2 (initialState natStr c7Groups).choices
    (normalizeGroups natStr c7Groups).1 c5Apple (by decide) (by decide)
    ⟨{ key := "g", label := "G", icon := none, startIndex := 0, endIndex := 1
     , choices := [c5Apple] }, by decide, by decide⟩

theorem any_key_iff_mem (gs : List (NormalizedGroup V)) (k : String) :
    gs.any (fun g => decide (g.key = k)) = true ↔ k ∈ gs.map NormalizedGroup.key := by
  simp only [List.any_eq_true, List.mem_map, decide_eq_true_eq]

/-- C6: the selections object built by `buildSelections` holds exactly
the declared group keys (a key is present iff declared); a declared key
maps to the values of the checked entries carrying that key, in canonical
order; a declared key with no checked entry maps to the empty array; and
for a freshly normalized configuration with distinct keys, the canonical
entries of each group are exactly that group's choices in their original
order. -/
theorem c6_buildSelections_spec :
    (∀ (cs : List (Item V)) (gs : List (NormalizedGroup V)) (k : String),
      (lookupSel (buildSelections cs gs) k).isSome = true ↔
        k ∈ gs.map NormalizedGroup.key) ∧
    (∀ (cs : List (Item V)) (gs : List (NormalizedGroup V)) (k : String),
      k ∈ gs.map NormalizedGroup.key →
      lookupSel (buildSelections cs gs) k =
        some ((cs.filter
          (fun c => entryChecked c && decide (entryGroupKey c = some k))).map entryValue)) ∧
    (∀ (cs : List (Item V)) (gs : List (NormalizedGroup V)) (k : String),
      k ∈ gs.map NormalizedGroup.key →
      (∀ c ∈ cs, ¬(entryChecked c = true ∧ entryGroupKey c = some k)) →
      lookupSel (buildSelections cs gs) k = some []) ∧
    (∀ (str : V → Str) (rgs : List (Group V)), (rgs.map Group.key).Nodup →
      ∀ ng ∈ (normalizeGroups str rgs).1,
        groupChoicesOf (normalizeGroups str rgs).2 ng.key = ng.choices) := by
  refine ⟨?_, ?_, ?_, ?_⟩
  · intro cs gs k
    constructor
    · intro hsome
      rw [buildSelections_lookup] at hsome
      by_cases h : gs.any (fun g => decide (g.key = k))
      · exact (any_key_iff_mem gs k).mp h
      · rw [if_neg (by simpa using h)] at hsome
        simp at hsome
    · intro hmem
      rw [buildSelections_lookup, if_pos ((any_key_iff_mem gs k).mpr hmem)]
      rfl
  · intro cs gs k hk
    rw [buildSelections_lookup, if_pos ((any_key_iff_mem gs k).mpr hk)]
  · intro cs gs k hk hnone
    rw [buildSelections_lookup, if_pos ((any_key_iff_mem gs k).mpr hk)]
    have hfil : cs.filter (fun c => entryChecked c && decide (entryGroupKey c = some k)) =
        [] := by
      rw [List.filter_eq_nil_iff]
      intro c hc
      have := hnone c hc
      simp only [Bool.and_eq_true, decide_eq_true_eq]
      intro hcon
      exact this ⟨hcon.1, hcon.2⟩
    rw [hfil]
    simp
  · intro str rgs hnd ng hng
    exact groupChoicesOf_normalizeGroupsAux str rgs 0 0 hnd ng hng

/-- Closed instantiation of `c6_buildSelections_spec` on the
`c1Groups` session: the declared key "group" maps to the checked values
of its entries, an absent canonical sequence gives it the empty array,
and normalization lays out the group's choices in original order. -/
theorem c6_buildSelections_spec_witness :
    lookupSel (buildSelections (initialState natStr c1Groups).choices
        (normalizeGroups natStr c1Groups).1) "group" =
      some (((initialState natStr c1Groups).choices.filter
        (fun c => entryChecked c && decide (entryGroupKey c = some "group"))).map
          entryValue) ∧
    lookupSel (buildSelections ([] : List (Item Nat))
        (normalizeGroups natStr c1Groups).1) "group" = some [] ∧
    groupChoicesOf (normalizeGroups natStr c1Groups).2
        ({ key := "group", label := "Group", icon := none, startIndex := 0, endIndex := 2
         , choices := [{ value := 1, name := "1".data, description := none
                       , short := "1".data, disabled := false, checked := true
                       , groupKey := "group", groupIndex := 0, indexInGroup := 0 },
                       { value := 2, name := "2".data, description := none
                       , short := "2".data, disabled := false, checked := false
                       , groupKey := "group", groupIndex := 0, indexInGroup := 1 }] } :
          NormalizedGroup Nat).key =
      ({ key := "group", label := "Group", icon := none, startIndex := 0, endIndex := 2
       , choices := [{ value := 1, name := "1".data, description := none
                     , short := "1".data, disabled := false, checked := true
                     , groupKey := "group", groupIndex := 0, indexInGroup := 0 },
                     { value := 2, name := "2".data, description := none
                     , short := "2".data, disabled := false, checked := false
                     , groupKey := "group", groupIndex := 0, indexInGroup := 1 }] } :
        NormalizedGroup Nat).choices := by
  refine ⟨?_, ?_, ?_⟩
  · exact c6_buildSelections_spec.2.1 (initialState natStr c1Groups).choices
      (normalizeGroups natStr c1Groups).1 "group" (by decide)
  · exact c6_buildSelections_spec.2.2.1 [] (normalizeGroups natStr c1Groups).1 "group"
      (by decide) (by intro c hc; simp at hc)
  · exact c6_buildSelections_spec.2.2.2 natStr c1Groups (by decide) _ (by decide)

/-- C10: a choice configured with both `disabled` and `checked: true`
keeps `checked = true` through normalization; every scoped toggle/invert
operation leaves each disabled entry's checked flag unchanged (the single
space toggle does so for any header target, and for a selectable choice
target whenever entry identities `(value, groupKey)` are duplicate-free,
as the spec requires of valid configurations); the utils-level operations
skip disabled choices likewise; and a checked entry's value always
appears in its group's array in the built selections. -/
theorem c10_disabled_checked_invariant :
    (∀ (str : V → Str) (rgs : List (Group V)) (g : Group V) (c : Choice V),
      g ∈ rgs → c ∈ g.choices → c.disabled = some true → c.checked = some true →
      ∃ nc : NormalizedChoice V,
        Item.choice nc ∈ (normalizeGroups str rgs).2 ∧ nc.value = c.value ∧
        nc.disabled = true ∧ nc.checked = true ∧ nc.groupKey = g.key) ∧
    (∀ (cs : List (Item V)) (tc : NormalizedChoice V),
      Item.choice tc ∈ cs → tc.disabled = false →
      (cs.map (fun it => (entryValue it, entryGroupKey it))).Nodup →
      List.Forall₂ (fun a b => entryDisabled a = true → entryChecked b = entryChecked a)
        cs (spaceToggleOp cs (Item.choice tc))) ∧
    (∀ (cs : List (Item V)) (gk l : String) (ic : Option String) (b : Bool),
      List.Forall₂ (fun a b2 => entryDisabled a = true → entryChecked b2 = entryChecked a)
        cs (spaceToggleOp cs (Item.header gk l ic b))) ∧
    (∀ (cs fc : List (Item V)) (gk : String),
      List.Forall₂ (fun a b => entryDisabled a = true → entryChecked b = entryChecked a)
        cs (groupToggleAllOp cs fc gk) ∧
      List.Forall₂ (fun a b => entryDisabled a = true → entryChecked b = entryChecked a)
        cs (groupInvertOp cs fc gk)) ∧
    (∀ (cs fc : List (Item V)),
      List.Forall₂ (fun a b => entryDisabled a = true → entryChecked b = entryChecked a)
        cs (globalToggleAllOp cs fc) ∧
      List.Forall₂ (fun a b => entryDisabled a = true → entryChecked b = entryChecked a)
        cs (globalInvertOp cs fc)) ∧
    (∀ (cs : List (NormalizedChoice V)) (g : NormalizedGroup V) (b : Bool),
      List.Forall₂ (fun a b2 => a.disabled = true → b2.checked = a.checked)
        cs (toggleGroup cs g b) ∧
      List.Forall₂ (fun a b2 => a.disabled = true → b2.checked = a.checked)
        cs (invertGroup cs g) ∧
      List.Forall₂ (fun a b2 => a.disabled = true → b2.checked = a.checked)
        cs (toggleAll cs b) ∧
      List.Forall₂ (fun a b2 => a.disabled = true → b2.checked = a.checked)
        cs (invertAll cs)) ∧
    (∀ (cs : List (Item V)) (gs : List (NormalizedGroup V)) (c : NormalizedChoice V),
      Item.choice c ∈ cs → c.checked = true → c.groupKey ∈ gs.map NormalizedGroup.key →
      ∃ l, lookupSel (buildSelections cs gs) c.groupKey = some l ∧ some c.value ∈ l) := by
  refine ⟨?_, ?_, ?_, ?_, ?_, ?_, ?_⟩
  · intro str rgs g c hg hc hdis hchk
    obtain ⟨nc, h1, h2, h3, h4, h5⟩ :=
      normalizeGroupsAux_mem_flat str rgs 0 0 g c hg hc
    refine ⟨nc, h1, h2, ?_, ?_, h5⟩
    · rw [h3, hdis]; rfl
    · rw [h4, hchk]; rfl
  · intro cs tc htc hdis hnd
    apply forall2_map_self
    intro it hit hd
    rw [if_neg]
    intro hcond
    have hid : (fun it => (entryValue it, entryGroupKey it)) it =
        (fun it => (entryValue it, entryGroupKey it)) (Item.choice tc) := by
      simp only [Prod.mk.injEq]
      exact ⟨hcond.1, hcond.2⟩
    have heq : it = Item.choice tc := List.inj_on_of_nodup_map hnd hit htc hid
    rw [heq] at hd
    rw [show entryDisabled (Item.choice tc) = tc.disabled from rfl, hdis] at hd
    cases hd
  · intro cs gk l ic b
    apply forall2_map_self
    intro it hit hd
    rw [if_neg]
    intro hcond
    cases it with
    | choice c2 => exact absurd hcond.1 (by simp [entryValue])
    | header a b2 d e => simp [entryDisabled] at hd
    | separator s2 => simp [entryDisabled] at hd
  · intro cs fc gk
    constructor <;>
      (apply forall2_map_self
       intro it hit hd
       rw [if_neg]
       intro hcond
       rw [hd] at hcond
       exact absurd hcond.2.1 (by simp))
  · intro cs fc
    constructor <;>
      (apply forall2_map_self
       intro it hit hd
       rw [if_neg]
       intro hcond
       rw [hd] at hcond
       exact absurd hcond.1 (by simp))
  · intro cs g b
    refine ⟨?_, ?_, ?_, ?_⟩ <;>
      (apply forall2_map_self
       intro c2 hc2 hd
       rw [if_neg]
       intro hcond
       first
       | exact absurd (hd ▸ hcond.2) (by simp)
       | exact absurd (hd ▸ hcond) (by simp))
  · intro cs gs c hmem hchk hkey
    refine ⟨(cs.filter (fun c2 => entryChecked c2 &&
        decide (entryGroupKey c2 = some c.groupKey))).map entryValue, ?_, ?_⟩
    · rw [buildSelections_lookup, if_pos ((any_key_iff_mem gs c.groupKey).mpr hkey)]
    · have hmm : entryValue (Item.choice c) ∈
          (cs.filter (fun c2 => entryChecked c2 &&
            decide (entryGroupKey c2 = some c.groupKey))).map entryValue :=
        List.mem_map_of_mem _ (List.mem_filter.mpr
          ⟨hmem, by simp [entryChecked, entryGroupKey, hchk]⟩)
      simpa [entryValue] using hmm

/-- Groups with a disabled pre-checked item next to a selectable one. -/
def c10Groups : List (Group Nat) :=
  [{ key := "g", label := "G"
   , choices := [{ value := 1, disabled := some true, checked := some true }
                , { value := 2 }] }]

/-- The canonical entry for the disabled checked item of `c10Groups`. -/
def c10Disabled : NormalizedChoice Nat :=
  { value := 1, name := "1".data, description := none, short := "1".data
  , disabled := true, checked := true, groupKey := "g", groupIndex := 0
  , indexInGroup := 0 }

/-- The canonical entry for the selectable item of `c10Groups`. -/
def c10Target : NormalizedChoice Nat :=
  { value := 2, name := "2".data, description := none, short := "2".data
  , disabled := false, checked := false, groupKey := "g", groupIndex := 0
  , indexInGroup := 1 }

/-- Closed instantiation of `c10_disabled_checked_invariant` on
`c10Groups`: the disabled checked item survives normalization, a space
toggle on its selectable sibling leaves its checked flag alone, and its
value appears in its group's array of the built selections. -/
theorem c10_disabled_checked_invariant_witness :
    (∃ nc : NormalizedChoice Nat,
      Item.choice nc ∈ (normalizeGroups natStr c10Groups).2 ∧ nc.value = 1 ∧
      nc.disabled = true ∧ nc.checked = true ∧ nc.groupKey = "g") ∧
    List.Forall₂ (fun a b => entryDisabled a = true → entryChecked b = entryChecked a)
      (initialState natStr c10Groups).choices
      (spaceToggleOp (initialState natStr c10Groups).choices (Item.choice c10Target)) ∧
    (∃ l, lookupSel (buildSelections (initialState natStr c10Groups).choices
        (normalizeGroups natStr c10Groups).1) c10Disabled.groupKey = some l ∧
      some c10Disabled.value ∈ l) := by
  refine ⟨?_, ?_, ?_⟩
  · exact c10_disabled_checked_invariant.1 natStr c10Groups
      { key := "g", label := "G"
      , choices := [{ value := 1, disabled := some true, checked := some true }
                   , { value := 2 }] }
      { value := 1, disabled := some true, checked := some true }
      (by decide) (by decide) rfl rfl
  · exact c10_disabled_checked_invariant.2.1 (initialState natStr c10Groups).choices
      c10Target (by decide) rfl (by decide)
  · exact c10_disabled_checked_invariant.2.2.2.2.2.2
      (initialState natStr c10Groups).choices (normalizeGroups natStr c10Groups).1
      c10Disabled (by decide) rfl (by decide)

end GC

